import Mathlib

/-!
Shallow embedding of `content_store.go` from lfs-test-server.

The Go file implements a content-addressable blob store over the local file
system: `NewContentStore` (root creation), `transformKey` (directory
sharding), `ContentStore.Put` (hash+compress stream, verify, atomic rename),
`ContentStore.Get` (open, decompress, skip offset), `ContentStore.Exists`
(stat-based presence check), and `bothCloser` (dual-resource close wrapper).

The file system is modelled as an explicit state: an association list of
directories (with their creation permission bits) and an association list of
files.  A file entry is either readable content (a byte list) or
`inaccessible`, standing for a path on which `stat`/`open` fail with an error
other than "not found" (e.g. a permission error).  gzip and sha256 are
library calls in the source; they are modelled as parameters (`Codec`, a
hash function `List Nat → String`) so theorems quantify over any compressor
satisfying the decompress-compress round trip, which gzip provides.
-/

/-- A file in the modelled file system: readable content, or a path whose
`stat`/`open` fail with an error other than "not found". -/
inductive FileEntry where
  | file (content : List Nat)
  | inaccessible
  deriving DecidableEq, Repr

/-- File-system state: directories (path, permission bits) and files. -/
structure St where
  dirs : List (String × Nat)
  files : List (String × FileEntry)
  deriving DecidableEq, Repr

/-- First-match association-list lookup (string keys). -/
def lookupKV {α : Type} : List (String × α) → String → Option α
  | [], _ => none
  | (k, v) :: rest, key => if k = key then some v else lookupKV rest key

/-- Remove every binding of `key`. -/
def eraseKV {α : Type} : List (String × α) → String → List (String × α)
  | [], _ => []
  | e :: rest, key => if e.1 = key then eraseKV rest key else e :: eraseKV rest key

/-- Write `v` at file path `k` (replacing any previous entry). -/
def insertFile (st : St) (k : String) (v : FileEntry) : St :=
  { st with files := (k, v) :: eraseKV st.files k }

/-- Delete the file at path `k` (`os.Remove`; a no-op here when absent,
matching the best-effort deferred removal in the source). -/
def eraseFile (st : St) (k : String) : St :=
  { st with files := eraseKV st.files k }

/-- `filepath.Join` on two components (the source only joins clean,
slash-free hex components, where Go's `Clean` is the identity). -/
def pathJoin (a b : String) : String :=
  if a = "" then b else if b = "" then a else a ++ "/" ++ b

/-- Go byte-slice `s[:n]` (identifiers in the source are ASCII hex). -/
def strTake (s : String) (n : Nat) : String := ⟨s.data.take n⟩

/-- Go byte-slice `s[n:]`. -/
def strDrop (s : String) (n : Nat) : String := ⟨s.data.drop n⟩

/-- Go `len(s)` for the ASCII identifiers the store receives. -/
def strLen (s : String) : Nat := s.data.length

/-- `transformKey` from content_store.go lines 135-141: identifiers shorter
than 5 pass through; otherwise `filepath.Join(key[0:2], key[2:4], key[4:])`. -/
def transformKey (key : String) : String :=
  if strLen key < 5 then key
  else pathJoin (pathJoin (strTake key 2) (strTake (strDrop key 2) 2)) (strDrop key 4)

/-- Split a character list on the path separator (`strings.Split(s, "/")`). -/
def splitSlash : List Char → List (List Char)
  | [] => [[]]
  | c :: rest =>
    match splitSlash rest with
    | [] => [[]]
    | g :: gs => if c = '/' then [] :: g :: gs else (c :: g) :: gs

/-- Join path components with the separator. -/
def joinSlash : List (List Char) → List Char
  | [] => []
  | [g] => g
  | g :: gs => g ++ '/' :: joinSlash gs

/-- `filepath.Dir`: everything before the final path separator
(`"."` when there is none). -/
def dirName (p : String) : String :=
  let parts := (splitSlash p.data).dropLast
  if parts = [] then "." else ⟨joinSlash parts⟩

/-- The chain of ancestor paths `os.MkdirAll` visits for `p`:
for `"a/b/c"` this is `["a", "a/b", "a/b/c"]`. -/
def ancestorPaths (p : String) : List String :=
  ((splitSlash p.data).foldl
    (fun acc part =>
      let np := if acc.2.isEmpty then part else acc.2 ++ '/' :: part
      (acc.1 ++ [String.mk np], np))
    (([], []) : List String × List Char)).1

/-- Worker for `os.MkdirAll`: walk the ancestor chain top-down, fail on a
path occupied by a file, create each missing directory with `perm`. -/
def mkdirAllGo (files : List (String × FileEntry)) (perm : Nat) :
    List (String × Nat) → List String → Option String × List (String × Nat)
  | dirs, [] => (none, dirs)
  | dirs, q :: rest =>
    if (lookupKV files q).isSome then (some q, dirs)
    else if (lookupKV dirs q).isSome then mkdirAllGo files perm dirs rest
    else mkdirAllGo files perm (dirs ++ [(q, perm)]) rest

/-- Store-level error values surfaced by the operations
(`errSizeMismatch`, `errHashMismatch`, and the `os`/`io`/`gzip` errors the
source propagates). -/
inductive StoreErr where
  | ioErr
  | alreadyExists
  | sizeMismatch
  | hashMismatch
  | notFound
  | gzipFormat
  | eof
  deriving DecidableEq, Repr

/-- `os.MkdirAll(p, perm)`: never touches files; adds the missing ancestors
of `p` as directories, erroring if one is occupied by a file. -/
def mkdirAll (st : St) (p : String) (perm : Nat) : Option StoreErr × St :=
  let r := mkdirAllGo st.files perm st.dirs (ancestorPaths p)
  (r.1.map (fun _ => StoreErr.ioErr), { dirs := r.2, files := st.files })

/-- A compressor/decompressor pair standing for the `compress/gzip`
library calls in the source. -/
structure Codec where
  compress : List Nat → List Nat
  decompress : List Nat → Option (List Nat)

/-- The identity codec: a concrete `Codec` satisfying the
decompress-compress round trip, used to instantiate witnesses. -/
def idCodec : Codec :=
  { compress := fun b => b, decompress := fun b => some b }

/-- `MetaObject`: the fields of the metadata record the store consumes
(`Oid` identifier and expected decompressed `Size`, an int64 in Go). -/
structure MetaObject where
  oid : String
  size : Int
  deriving DecidableEq, Repr

/-- `ContentStore` from the source: just the base path. -/
structure ContentStore where
  basePath : String
  deriving DecidableEq, Repr

/-- `filepath.Join(s.basePath, transformKey(meta.Oid)) + ".gz"`, the final
object path computed identically in Get, Put and Exists. -/
def finalPath (basePath oid : String) : String :=
  pathJoin basePath (transformKey oid) ++ ".gz"

/-- `NewContentStore` (lines 26-32): `os.MkdirAll(base, 0750)`, returning
the store on success and the error otherwise. -/
def NewContentStore (st : St) (base : String) :
    Option StoreErr × Option ContentStore × St :=
  match mkdirAll st base 0o750 with
  | (some e, st') => (some e, none, st')
  | (none, st') => (none, some ⟨base⟩, st')

/-- `ContentStore.Get` (lines 53-75): open the final path, wrap in a gzip
reader, and when `fromByte > 0` discard that many decompressed bytes with
`io.CopyN` (which reports `io.EOF` when the stream is shorter).  The result
models Go's `(io.ReadCloser, error)` pair: the remaining decompressed bytes
of the returned reader, and the error. -/
def ContentStore.Get (s : ContentStore) (c : Codec) (st : St)
    (meta : MetaObject) (fromByte : Int) :
    Option (List Nat) × Option StoreErr :=
  let path := finalPath s.basePath meta.oid
  match lookupKV st.files path with
  | none => (none, some .notFound)
  | some .inaccessible => (none, some .ioErr)
  | some (.file data) =>
    match c.decompress data with
    | none => (none, some .gzipFormat)
    | some b =>
      if fromByte > 0 then
        let err := if (b.length : Int) < fromByte then some StoreErr.eof else none
        (some (b.drop fromByte.toNat), err)
      else (some b, none)

/-- `ContentStore.Put` (lines 78-124): ensure the parent directory, create
the temporary file exclusively (`O_CREATE|O_WRONLY|O_EXCL`), stream the
source through sha256 and gzip into it, then check size, check hash, and
only then rename into place; the deferred `os.Remove(tmpPath)` deletes the
temporary file on the failure paths and is a no-op after the rename. -/
def ContentStore.Put (s : ContentStore) (c : Codec)
    (hashHex : List Nat → String) (st : St) (meta : MetaObject)
    (b : List Nat) : Option StoreErr × St :=
  let path := finalPath s.basePath meta.oid
  let tmpPath := path ++ ".tmp"
  match mkdirAll st (dirName path) 0o750 with
  | (some e, st1) => (some e, st1)
  | (none, st1) =>
    match lookupKV st1.files tmpPath with
    | some (.file _) => (some .alreadyExists, st1)
    | some .inaccessible => (some .ioErr, st1)
    | none =>
      let st2 := insertFile st1 tmpPath (.file (c.compress b))
      if (b.length : Int) ≠ meta.size then (some .sizeMismatch, eraseFile st2 tmpPath)
      else if hashHex b ≠ meta.oid then (some .hashMismatch, eraseFile st2 tmpPath)
      else (none, insertFile (eraseFile st2 tmpPath) path (.file (c.compress b)))

/-- Outcome of `os.Stat` as the source distinguishes it:
success, `IsNotExist`, or any other error. -/
inductive StatRes where
  | ok
  | notExist
  | otherErr
  deriving DecidableEq, Repr

/-- `os.Stat` on the modelled file system. -/
def stat (st : St) (p : String) : StatRes :=
  match lookupKV st.files p with
  | none => .notExist
  | some (.file _) => .ok
  | some .inaccessible => .otherErr

/-- `ContentStore.Exists` (lines 127-133): `false` exactly when `os.Stat`
fails with `IsNotExist`; `true` otherwise. -/
def ContentStore.Exists (s : ContentStore) (st : St) (meta : MetaObject) : Bool :=
  match stat st (finalPath s.basePath meta.oid) with
  | .notExist => false
  | _ => true

/-- `bothCloser.Close` (lines 43-49), modelled on the errors the two
underlying `Close` calls would return: `err := b.g.Close()` runs first, then
`b.f.Close()`, whose error is returned when non-nil; otherwise the gzip
error is returned.  The first component records the order in which the two
resources are released. -/
def bothCloserClose (gErr fErr : Option StoreErr) : List String × Option StoreErr :=
  let err := gErr
  match fErr with
  | some e => (["gzip", "file"], some e)
  | none => (["gzip", "file"], err)

example : transformKey "abc" = "abc" := by decide
example : transformKey "abcdef1234" = "ab/cd/ef1234" := by decide
example : ancestorPaths "a/b/c" = ["a", "a/b", "a/b/c"] := by decide
example : dirName "base/ab/cd/ef.gz" = "base/ab/cd" := by decide
example :
    (ContentStore.Put ⟨"base"⟩ idCodec (fun _ => "abc") ⟨[], []⟩ ⟨"abc", 3⟩ [1, 2, 3]).1
      = none := by decide
example :
    ContentStore.Get ⟨"base"⟩ idCodec
      (ContentStore.Put ⟨"base"⟩ idCodec (fun _ => "abc") ⟨[], []⟩ ⟨"abc", 3⟩ [1, 2, 3]).2
      ⟨"abc", 3⟩ 0 = (some [1, 2, 3], none) := by decide

/-! ### Association-list and path lemmas -/

theorem lookupKV_eraseKV_self {α : Type} (l : List (String × α)) (k : String) :
    lookupKV (eraseKV l k) k = none := by
  induction l with
  | nil => rfl
  | cons e rest ih =>
    by_cases h : e.1 = k
    · simpa [eraseKV, h] using ih
    · simpa [eraseKV, lookupKV, h] using ih

theorem lookupKV_eraseKV_ne {α : Type} (l : List (String × α)) (k k' : String)
    (h : k' ≠ k) : lookupKV (eraseKV l k) k' = lookupKV l k' := by
  induction l with
  | nil => rfl
  | cons e rest ih =>
    by_cases he : e.1 = k
    · have he' : ¬e.1 = k' := fun hc => h (hc ▸ he)
      simp [eraseKV, lookupKV, he, he', ih, h, Ne.symm h]
    · by_cases he' : e.1 = k'
      · simp [eraseKV, lookupKV, he, he', h, Ne.symm h]
      · simp [eraseKV, lookupKV, he, he', ih]

theorem lookupKV_insertFile_self (st : St) (k : String) (v : FileEntry) :
    lookupKV (insertFile st k v).files k = some v := by
  simp [insertFile, lookupKV]

theorem lookupKV_insertFile_ne (st : St) (k k' : String) (v : FileEntry)
    (h : k' ≠ k) : lookupKV (insertFile st k v).files k' = lookupKV st.files k' := by
  have hk : k ≠ k' := fun hc => h hc.symm
  simp [insertFile, lookupKV, hk, lookupKV_eraseKV_ne st.files k k' h]

theorem data_append (a b : String) : (a ++ b).data = a.data ++ b.data := rfl

theorem ne_append_of_data_ne_nil (s t : String) (ht : t.data ≠ []) : s ≠ s ++ t := by
  intro h
  have hd : s.data = s.data ++ t.data := by
    have := congrArg String.data h
    simpa [data_append] using this
  have hl := congrArg List.length hd
  simp at hl
  exact ht (List.eq_nil_of_length_eq_zero hl)

theorem finalPath_ne_tmp (basePath oid : String) :
    finalPath basePath oid ≠ finalPath basePath oid ++ ".tmp" :=
  ne_append_of_data_ne_nil _ _ (by decide)

theorem mkdirAll_files (st : St) (p : String) (perm : Nat) :
    (mkdirAll st p perm).2.files = st.files := rfl

/-! ### mkdirAllGo lemmas -/

theorem lookupKV_append {α : Type} (l1 l2 : List (String × α)) (k : String) :
    lookupKV (l1 ++ l2) k =
      match lookupKV l1 k with
      | some v => some v
      | none => lookupKV l2 k := by
  induction l1 with
  | nil => simp [lookupKV]
  | cons e rest ih =>
    by_cases h : e.1 = k
    · simp [lookupKV, h]
    · simpa [lookupKV, h] using ih

theorem mkdirAllGo_mono (files : List (String × FileEntry)) (perm : Nat)
    (q : String) (v : Nat) :
    ∀ (qs : List String) (dirs : List (String × Nat)),
      lookupKV dirs q = some v →
      lookupKV (mkdirAllGo files perm dirs qs).2 q = some v := by
  intro qs
  induction qs with
  | nil => intro dirs h; simpa [mkdirAllGo] using h
  | cons q' rest ih =>
    intro dirs h
    by_cases hf : (lookupKV files q').isSome
    · simpa [mkdirAllGo, hf] using h
    · by_cases hd : (lookupKV dirs q').isSome
      · simpa [mkdirAllGo, hf, hd] using ih dirs h
      · have happ : lookupKV (dirs ++ [(q', perm)]) q = some v := by
          rw [lookupKV_append, h]
        simpa [mkdirAllGo, hf, hd] using ih (dirs ++ [(q', perm)]) happ

theorem mkdirAllGo_ok (files : List (String × FileEntry)) (perm : Nat) :
    ∀ (qs : List String) (dirs : List (String × Nat)),
      (∀ q ∈ qs, lookupKV files q = none) →
      (mkdirAllGo files perm dirs qs).1 = none := by
  intro qs
  induction qs with
  | nil => intro dirs _; rfl
  | cons q' rest ih =>
    intro dirs h
    have hf : lookupKV files q' = none := h q' (by simp)
    have hrest : ∀ q ∈ rest, lookupKV files q = none := fun q hq => h q (by simp [hq])
    by_cases hd : (lookupKV dirs q').isSome
    · simpa [mkdirAllGo, hf, hd] using ih dirs hrest
    · simpa [mkdirAllGo, hf, hd] using ih (dirs ++ [(q', perm)]) hrest

theorem mkdirAllGo_creates (files : List (String × FileEntry)) (perm : Nat)
    (q : String) :
    ∀ (qs : List String) (dirs : List (String × Nat)),
      q ∈ qs → (∀ x ∈ qs, lookupKV files x = none) →
      lookupKV dirs q = none →
      lookupKV (mkdirAllGo files perm dirs qs).2 q = some perm := by
  intro qs
  induction qs with
  | nil => intro dirs h; exact absurd h (by simp)
  | cons q' rest ih =>
    intro dirs hmem hfiles hq
    have hf : lookupKV files q' = none := hfiles q' (by simp)
    have hrest : ∀ x ∈ rest, lookupKV files x = none :=
      fun x hx => hfiles x (by simp [hx])
    by_cases heq : q = q'
    · subst heq
      by_cases hd : (lookupKV dirs q).isSome
      · rw [hq] at hd; simp at hd
      · have happ : lookupKV (dirs ++ [(q, perm)]) q = some perm := by
          rw [lookupKV_append, hq]; simp [lookupKV]
        simpa [mkdirAllGo, hf, hd] using
          mkdirAllGo_mono files perm q perm rest (dirs ++ [(q, perm)]) happ
    · have hmem' : q ∈ rest := by
        rcases List.mem_cons.mp hmem with h | h
        · exact absurd h heq
        · exact h
      by_cases hd : (lookupKV dirs q').isSome
      · simpa [mkdirAllGo, hf, hd] using ih dirs hmem' hrest hq
      · have hne : ¬q' = q := fun hc => heq hc.symm
        have happ : lookupKV (dirs ++ [(q', perm)]) q = none := by
          rw [lookupKV_append, hq]
          simp [lookupKV, hne]
        simpa [mkdirAllGo, hf, hd] using ih (dirs ++ [(q', perm)]) hmem' hrest happ

theorem mkdirAllGo_mem (files : List (String × FileEntry)) (perm : Nat)
    (q : String) :
    ∀ (qs : List String) (dirs : List (String × Nat)),
      q ∈ qs → (∀ x ∈ qs, lookupKV files x = none) →
      (lookupKV (mkdirAllGo files perm dirs qs).2 q).isSome := by
  intro qs dirs hmem hfiles
  by_cases hq : lookupKV dirs q = none
  · rw [mkdirAllGo_creates files perm q qs dirs hmem hfiles hq]; rfl
  · rcases Option.ne_none_iff_exists'.mp hq with ⟨v, hv⟩
    rw [mkdirAllGo_mono files perm q v qs dirs hv]; rfl

theorem mkdirAllGo_noop (files : List (String × FileEntry)) (perm : Nat) :
    ∀ (qs : List String) (dirs : List (String × Nat)),
      (∀ q ∈ qs, lookupKV files q = none) →
      (∀ q ∈ qs, (lookupKV dirs q).isSome) →
      mkdirAllGo files perm dirs qs = (none, dirs) := by
  intro qs
  induction qs with
  | nil => intro dirs _ _; rfl
  | cons q' rest ih =>
    intro dirs hfiles hdirs
    have hf : lookupKV files q' = none := hfiles q' (by simp)
    have hd : (lookupKV dirs q').isSome := hdirs q' (by simp)
    have hrest1 : ∀ q ∈ rest, lookupKV files q = none :=
      fun q hq => hfiles q (by simp [hq])
    have hrest2 : ∀ q ∈ rest, (lookupKV dirs q).isSome :=
      fun q hq => hdirs q (by simp [hq])
    simpa [mkdirAllGo, hf, hd] using ih dirs hrest1 hrest2

theorem mkdirAllGo_err (files : List (String × FileEntry)) (perm : Nat)
    (q : String) :
    ∀ (qs : List String) (dirs : List (String × Nat)),
      q ∈ qs → (lookupKV files q).isSome →
      ∃ p, (mkdirAllGo files perm dirs qs).1 = some p := by
  intro qs
  induction qs with
  | nil => intro dirs h; exact absurd h (by simp)
  | cons q' rest ih =>
    intro dirs hmem hq
    by_cases hf : (lookupKV files q').isSome
    · exact ⟨q', by simp [mkdirAllGo, hf]⟩
    · have hmem' : q ∈ rest := by
        rcases List.mem_cons.mp hmem with h | h
        · subst h; exact absurd hq hf
        · exact h
      by_cases hd : (lookupKV dirs q').isSome
      · simpa [mkdirAllGo, hf, hd] using ih dirs hmem' hq
      · simpa [mkdirAllGo, hf, hd] using ih (dirs ++ [(q', perm)]) hmem' hq

/-! ### Put reduction under reachable preconditions -/

theorem put_reaches_checks (s : ContentStore) (c : Codec)
    (hashHex : List Nat → String) (st : St) (meta : MetaObject) (b : List Nat)
    (hmk : (mkdirAll st (dirName (finalPath s.basePath meta.oid)) 0o750).1 = none)
    (htmp : lookupKV st.files (finalPath s.basePath meta.oid ++ ".tmp") = none) :
    ContentStore.Put s c hashHex st meta b =
      (let st1 := (mkdirAll st (dirName (finalPath s.basePath meta.oid)) 0o750).2
       let tmpPath := finalPath s.basePath meta.oid ++ ".tmp"
       let st2 := insertFile st1 tmpPath (FileEntry.file (c.compress b))
       if (b.length : Int) ≠ meta.size then
         (some StoreErr.sizeMismatch, eraseFile st2 tmpPath)
       else if hashHex b ≠ meta.oid then
         (some StoreErr.hashMismatch, eraseFile st2 tmpPath)
       else
         (none, insertFile (eraseFile st2 tmpPath) (finalPath s.basePath meta.oid)
           (FileEntry.file (c.compress b)))) := by
  simp only [ContentStore.Put]
  split
  · next e st1 heq =>
    rw [heq] at hmk
    simp at hmk
  · next st1 heq =>
    have h2 : (mkdirAll st (dirName (finalPath s.basePath meta.oid)) 0o750).2 = st1 :=
      congrArg Prod.snd heq
    rw [← h2]
    rw [mkdirAll_files, htmp]

theorem lookup_erase_insert_self (st : St) (tmp : String) (v : FileEntry) :
    lookupKV (eraseFile (insertFile st tmp v) tmp).files tmp = none := by
  simp [eraseFile, lookupKV_eraseKV_self]

theorem lookup_erase_insert_other (st : St) (tmp other : String) (v : FileEntry)
    (h : other ≠ tmp) :
    lookupKV (eraseFile (insertFile st tmp v) tmp).files other
      = lookupKV st.files other := by
  simp only [eraseFile]
  rw [lookupKV_eraseKV_ne _ _ _ h, lookupKV_insertFile_ne _ _ _ _ h]

/-- C8: while a put for an identifier is in progress (its temporary file is
present), a second put for the same identifier fails with the already-exists
error from exclusive temporary-file creation (`O_CREATE|O_WRONLY|O_EXCL`)
and writes no file data at all. -/
theorem put_tmp_already_exists (s : ContentStore) (c : Codec)
    (hashHex : List Nat → String) (st : St) (meta : MetaObject) (b cnt : List Nat)
    (hmk : (mkdirAll st (dirName (finalPath s.basePath meta.oid)) 0o750).1 = none)
    (htmp : lookupKV st.files (finalPath s.basePath meta.oid ++ ".tmp")
      = some (FileEntry.file cnt)) :
    (ContentStore.Put s c hashHex st meta b).1 = some StoreErr.alreadyExists ∧
    (ContentStore.Put s c hashHex st meta b).2.files = st.files := by
  have hput : ContentStore.Put s c hashHex st meta b
      = (some StoreErr.alreadyExists,
         (mkdirAll st (dirName (finalPath s.basePath meta.oid)) 0o750).2) := by
    simp only [ContentStore.Put]
    split
    · next e st1 heq =>
      rw [heq] at hmk
      simp at hmk
    · next st1 heq =>
      have h2 : (mkdirAll st (dirName (finalPath s.basePath meta.oid)) 0o750).2 = st1 :=
        congrArg Prod.snd heq
      have hf : st1.files = st.files :=
        h2 ▸ mkdirAll_files st (dirName (finalPath s.basePath meta.oid)) 0o750
      rw [hf, htmp, h2]
  rw [hput]
  exact ⟨rfl, rfl⟩

/-- C4: a put whose expected size disagrees with the source length fails
with the size-mismatch error; the temporary file is gone, nothing was
renamed to the final path, and `Exists` reports false afterwards (assuming
no prior object and no competing write). -/
theorem put_size_mismatch (s : ContentStore) (c : Codec)
    (hashHex : List Nat → String) (st : St) (meta : MetaObject) (b : List Nat)
    (hsize : (b.length : Int) ≠ meta.size)
    (hmk : (mkdirAll st (dirName (finalPath s.basePath meta.oid)) 0o750).1 = none)
    (htmp : lookupKV st.files (finalPath s.basePath meta.oid ++ ".tmp") = none)
    (hfinal : lookupKV st.files (finalPath s.basePath meta.oid) = none) :
    (ContentStore.Put s c hashHex st meta b).1 = some StoreErr.sizeMismatch ∧
    lookupKV (ContentStore.Put s c hashHex st meta b).2.files
      (finalPath s.basePath meta.oid ++ ".tmp") = none ∧
    lookupKV (ContentStore.Put s c hashHex st meta b).2.files
      (finalPath s.basePath meta.oid) = none ∧
    ContentStore.Exists s (ContentStore.Put s c hashHex st meta b).2 meta = false := by
  have hred := put_reaches_checks s c hashHex st meta b hmk htmp
  rw [if_pos hsize] at hred
  rw [hred]
  refine ⟨rfl, lookup_erase_insert_self _ _ _, ?_, ?_⟩
  · rw [lookup_erase_insert_other _ _ _ _ (finalPath_ne_tmp s.basePath meta.oid)]
    rw [mkdirAll_files]
    exact hfinal
  · have hlook : lookupKV
        (eraseFile (insertFile (mkdirAll st (dirName (finalPath s.basePath meta.oid)) 0o750).2
          (finalPath s.basePath meta.oid ++ ".tmp") (FileEntry.file (c.compress b)))
          (finalPath s.basePath meta.oid ++ ".tmp")).files
        (finalPath s.basePath meta.oid) = none := by
      rw [lookup_erase_insert_other _ _ _ _ (finalPath_ne_tmp s.basePath meta.oid)]
      rw [mkdirAll_files]
      exact hfinal
    simp [ContentStore.Exists, stat, hlook]

/-- C5: with the size matching but a wrong identifier, put fails with the
hash-mismatch error and leaves nothing at the final path; and when both
checks would fail, the size error is the one returned, showing the size
comparison runs before the hash comparison. -/
theorem put_hash_mismatch (s : ContentStore) (c : Codec)
    (hashHex : List Nat → String) (st : St) (meta : MetaObject) (b : List Nat)
    (hmk : (mkdirAll st (dirName (finalPath s.basePath meta.oid)) 0o750).1 = none)
    (htmp : lookupKV st.files (finalPath s.basePath meta.oid ++ ".tmp") = none)
    (hfinal : lookupKV st.files (finalPath s.basePath meta.oid) = none) :
    ((b.length : Int) = meta.size → hashHex b ≠ meta.oid →
      (ContentStore.Put s c hashHex st meta b).1 = some StoreErr.hashMismatch ∧
      lookupKV (ContentStore.Put s c hashHex st meta b).2.files
        (finalPath s.basePath meta.oid) = none ∧
      lookupKV (ContentStore.Put s c hashHex st meta b).2.files
        (finalPath s.basePath meta.oid ++ ".tmp") = none) ∧
    ((b.length : Int) ≠ meta.size → hashHex b ≠ meta.oid →
      (ContentStore.Put s c hashHex st meta b).1 = some StoreErr.sizeMismatch) := by
  have hred := put_reaches_checks s c hashHex st meta b hmk htmp
  constructor
  · intro hsz hh
    rw [if_neg (fun hc => hc hsz), if_pos hh] at hred
    rw [hred]
    refine ⟨rfl, ?_, lookup_erase_insert_self _ _ _⟩
    rw [lookup_erase_insert_other _ _ _ _ (finalPath_ne_tmp s.basePath meta.oid)]
    rw [mkdirAll_files]
    exact hfinal
  · intro hsz _
    rw [if_pos hsz] at hred
    rw [hred]

/-- C1: putting bytes `b` under the descriptor `{hash(b), len(b)}` succeeds
(when the write can reach its checks), and getting the same descriptor at
offset 0 from the resulting state streams exactly `b` back — the
compress-then-decompress round trip through the store. -/
theorem put_get_roundtrip (s : ContentStore) (c : Codec)
    (hashHex : List Nat → String) (st : St) (meta : MetaObject) (b : List Nat)
    (hcodec : c.decompress (c.compress b) = some b)
    (hoid : meta.oid = hashHex b)
    (hsize : meta.size = (b.length : Int))
    (hmk : (mkdirAll st (dirName (finalPath s.basePath meta.oid)) 0o750).1 = none)
    (htmp : lookupKV st.files (finalPath s.basePath meta.oid ++ ".tmp") = none) :
    (ContentStore.Put s c hashHex st meta b).1 = none ∧
    ContentStore.Get s c (ContentStore.Put s c hashHex st meta b).2 meta 0
      = (some b, none) := by
  have hred := put_reaches_checks s c hashHex st meta b hmk htmp
  rw [if_neg (fun hc => hc hsize.symm), if_neg (fun hc => hc hoid.symm)] at hred
  rw [hred]
  refine ⟨rfl, ?_⟩
  simp [ContentStore.Get, lookupKV_insertFile_self, hcodec]

/-- C3: for a stored object whose decompressed content is `b`, reading at an
offset `0 ≤ k ≤ len(b)` yields exactly the suffix `b[k:]` with no error,
while an offset beyond the length surfaces the EOF/short-read error. -/
theorem get_partial_read (s : ContentStore) (c : Codec) (st : St)
    (meta : MetaObject) (b : List Nat) (k : Int)
    (hstored : lookupKV st.files (finalPath s.basePath meta.oid)
      = some (FileEntry.file (c.compress b)))
    (hcodec : c.decompress (c.compress b) = some b) :
    (0 ≤ k → k ≤ (b.length : Int) →
      ContentStore.Get s c st meta k = (some (b.drop k.toNat), none)) ∧
    ((b.length : Int) < k →
      (ContentStore.Get s c st meta k).2 = some StoreErr.eof) := by
  constructor
  · intro h0 hk
    by_cases hpos : k > 0
    · have hlt : ¬((b.length : Int) < k) := not_lt.mpr hk
      simp [ContentStore.Get, hstored, hcodec, hpos, hlt]
    · have hzero : k = 0 := le_antisymm (not_lt.mp hpos) h0
      subst hzero
      simp [ContentStore.Get, hstored, hcodec]
  · intro hk
    have hpos : k > 0 := lt_of_le_of_lt (Int.natCast_nonneg b.length) hk
    simp [ContentStore.Get, hstored, hcodec, hpos, hk]

/-- C10: a get whose offset exceeds the decompressed length returns a
non-nil (empty, at end of stream) reader together with the non-nil EOF
error, rather than a nil reader. -/
theorem get_eof_nonnil_reader (s : ContentStore) (c : Codec) (st : St)
    (meta : MetaObject) (b : List Nat) (k : Int)
    (hstored : lookupKV st.files (finalPath s.basePath meta.oid)
      = some (FileEntry.file (c.compress b)))
    (hcodec : c.decompress (c.compress b) = some b)
    (hk : (b.length : Int) < k) :
    ContentStore.Get s c st meta k = (some [], some StoreErr.eof) ∧
    (ContentStore.Get s c st meta k).1 ≠ none := by
  have hpos : k > 0 := lt_of_le_of_lt (Int.natCast_nonneg b.length) hk
  have hdrop : b.drop k.toNat = [] := by
    apply List.drop_eq_nil_of_le
    omega
  have h1 : ContentStore.Get s c st meta k = (some [], some StoreErr.eof) := by
    simp [ContentStore.Get, hstored, hcodec, hpos, hk, hdrop]
  exact ⟨h1, by rw [h1]; simp⟩

/-- C2: `transformKey` is pure and total: identifiers shorter than 5
characters pass through unchanged, longer ones become
`key[0:2] ++ "/" ++ key[2:4] ++ "/" ++ key[4:]`, and in particular
`"abc"` maps to `"abc"` and `"abcdef1234"` to `"ab/cd/ef1234"`. -/
theorem transformKey_spec :
    (∀ key : String, strLen key < 5 → transformKey key = key) ∧
    (∀ key : String, 5 ≤ strLen key →
      transformKey key =
        strTake key 2 ++ "/" ++ strTake (strDrop key 2) 2 ++ "/" ++ strDrop key 4) ∧
    transformKey "abc" = "abc" ∧ transformKey "abcdef1234" = "ab/cd/ef1234" := by
  refine ⟨?_, ?_, by decide, by decide⟩
  · intro key h
    simp [transformKey, h]
  · intro key h
    have hlen : 5 ≤ key.data.length := h
    have h5 : ¬strLen key < 5 := not_lt.mpr h
    have ha : (strTake key 2).data ≠ [] := by
      simp only [strTake]
      intro hc
      have := congrArg List.length hc
      rw [List.length_take, List.length_nil] at this
      omega
    have hb : (strTake (strDrop key 2) 2).data ≠ [] := by
      simp only [strTake, strDrop]
      intro hc
      have := congrArg List.length hc
      rw [List.length_take, List.length_drop, List.length_nil] at this
      omega
    have hc : (strDrop key 4).data ≠ [] := by
      simp only [strDrop]
      intro hcon
      have := congrArg List.length hcon
      rw [List.length_drop, List.length_nil] at this
      omega
    have ha' : strTake key 2 ≠ "" := fun hcon => ha (by simpa using congrArg String.data hcon)
    have hb' : strTake (strDrop key 2) 2 ≠ "" :=
      fun hcon => hb (by simpa using congrArg String.data hcon)
    have hc' : strDrop key 4 ≠ "" := fun hcon => hc (by simpa using congrArg String.data hcon)
    have hj1 : pathJoin (strTake key 2) (strTake (strDrop key 2) 2)
        = strTake key 2 ++ "/" ++ strTake (strDrop key 2) 2 := by
      simp only [pathJoin]
      rw [if_neg ha', if_neg hb']
    have habne : strTake key 2 ++ "/" ++ strTake (strDrop key 2) 2 ≠ "" := by
      intro hcon
      have := congrArg String.data hcon
      rw [data_append, data_append] at this
      simp at this
    have hj2 : pathJoin (strTake key 2 ++ "/" ++ strTake (strDrop key 2) 2) (strDrop key 4)
        = strTake key 2 ++ "/" ++ strTake (strDrop key 2) 2 ++ "/" ++ strDrop key 4 := by
      simp only [pathJoin]
      rw [if_neg habne, if_neg hc']
    simp only [transformKey]
    rw [if_neg h5, hj1, hj2]

/-- C2 witness: the universal clauses of `transformKey_spec` applied to the
two concrete identifiers from the spec. -/
theorem transformKey_spec_witness :
    transformKey "abc" = "abc" ∧
    transformKey "abcdef1234" =
      strTake "abcdef1234" 2 ++ "/" ++ strTake (strDrop "abcdef1234" 2) 2 ++ "/" ++
        strDrop "abcdef1234" 4 :=
  ⟨transformKey_spec.1 "abc" (by decide),
   transformKey_spec.2.1 "abcdef1234" (by decide)⟩

/-- C6 counterexample: on a path whose `stat` fails with an error other
than "not found" (modelled by an `inaccessible` entry), `Exists` returns
`true`, not `false`: the code treats such errors as presence, contradicting
the claim that they are treated as absence. -/
theorem exists_error_counterexample :
    stat ⟨[], [("base/abc.gz", FileEntry.inaccessible)]⟩ (finalPath "base" "abc")
      = StatRes.otherErr ∧
    ContentStore.Exists ⟨"base"⟩ ⟨[], [("base/abc.gz", FileEntry.inaccessible)]⟩
      ⟨"abc", 0⟩ = true := by decide

/-- C6 amended: `Exists` is false exactly when `stat` reports "not found";
any other I/O error is treated as presence, i.e. `Exists` returns true. -/
theorem exists_amended (s : ContentStore) (st : St) (meta : MetaObject) :
    (ContentStore.Exists s st meta = false ↔
      stat st (finalPath s.basePath meta.oid) = StatRes.notExist) ∧
    (stat st (finalPath s.basePath meta.oid) = StatRes.otherErr →
      ContentStore.Exists s st meta = true) := by
  unfold ContentStore.Exists
  rcases h : stat st (finalPath s.basePath meta.oid) <;> simp [h]

/-- C6 amended witness: `exists_amended` applied to a store whose final
path is present but unreadable. -/
theorem exists_amended_witness :
    ContentStore.Exists ⟨"b"⟩ ⟨[], [("b/xyz.gz", FileEntry.inaccessible)]⟩
      ⟨"xyz", 1⟩ = true :=
  (exists_amended ⟨"b"⟩ ⟨[], [("b/xyz.gz", FileEntry.inaccessible)]⟩ ⟨"xyz", 1⟩).2
    (by decide)

/-- C7 counterexample: when both closes fail (gzip close error
`gzipFormat` first, then file close error `ioErr`), `bothCloser.Close`
returns the file's error — the second failure — not the decompressor's
first failure as the claim states. -/
theorem bothCloser_close_counterexample :
    (bothCloserClose (some StoreErr.gzipFormat) (some StoreErr.ioErr)).2
      = some StoreErr.ioErr ∧
    some StoreErr.ioErr ≠ some StoreErr.gzipFormat := by decide

/-- C7 amended: on close both resources are released, decompressor first
and file second, and the error surfaced is the file close's error when it
fails; the decompressor's error is surfaced only when the file close
succeeds. -/
theorem bothCloser_close_amended (g f : Option StoreErr) :
    (bothCloserClose g f).1 = ["gzip", "file"] ∧
    (bothCloserClose g f).2 = (match f with | some e => some e | none => g) := by
  cases f <;> simp [bothCloserClose]

/-- C9 counterexample: initializing a store at `"data"` on an empty file
system creates the directory with permission bits 0o750, whose group/other
bits (mode mod 64 = 0o50) are non-zero — so the permissions are not
restricted to owner read/write/execute (which would be 0o700). -/
theorem newContentStore_perm_counterexample :
    lookupKV (NewContentStore ⟨[], []⟩ "data").2.2.dirs "data" = some 0o750 ∧
    (0o750 : Nat) % 64 ≠ 0 ∧ (0o750 : Nat) ≠ 0o700 := by decide

/-- C9 amended: store initialization creates the root directory recursively
if absent with permission bits 0o750 (owner read/write/execute plus group
read/execute), is idempotent (a second initialization succeeds and leaves
the state unchanged), and fails with an I/O error when directory creation
fails because a file occupies one of the path's ancestors. -/
theorem newContentStore_amended (st : St) (base : String)
    (h : ∀ q ∈ ancestorPaths base, lookupKV st.files q = none) :
    (NewContentStore st base).1 = none ∧
    (NewContentStore st base).2.1 = some ⟨base⟩ ∧
    (∀ q ∈ ancestorPaths base,
      (lookupKV (NewContentStore st base).2.2.dirs q).isSome) ∧
    (∀ q ∈ ancestorPaths base, lookupKV st.dirs q = none →
      lookupKV (NewContentStore st base).2.2.dirs q = some 0o750) ∧
    NewContentStore (NewContentStore st base).2.2 base
      = (none, some ⟨base⟩, (NewContentStore st base).2.2) ∧
    (∀ st2 : St, (∃ q ∈ ancestorPaths base, (lookupKV st2.files q).isSome) →
      (NewContentStore st2 base).1 = some StoreErr.ioErr ∧
      (NewContentStore st2 base).2.1 = none) := by
  have hgo := mkdirAllGo_ok st.files 0o750 (ancestorPaths base) st.dirs h
  have hok : (mkdirAll st base 0o750).1 = none := by
    simp [mkdirAll, hgo]
  have hpair : mkdirAll st base 0o750 = (none, (mkdirAll st base 0o750).2) := by
    rw [← hok]
  have hnew : NewContentStore st base
      = (none, some ⟨base⟩, (mkdirAll st base 0o750).2) := by
    simp only [NewContentStore]
    rw [hpair]
  refine ⟨by rw [hnew], by rw [hnew], ?_, ?_, ?_, ?_⟩
  · intro q hq
    rw [hnew]
    exact mkdirAllGo_mem st.files 0o750 q (ancestorPaths base) st.dirs hq h
  · intro q hq hd
    rw [hnew]
    exact mkdirAllGo_creates st.files 0o750 q (ancestorPaths base) st.dirs hq h hd
  · have hmem2 : ∀ q ∈ ancestorPaths base,
        (lookupKV (mkdirAll st base 0o750).2.dirs q).isSome :=
      fun q hq => mkdirAllGo_mem st.files 0o750 q (ancestorPaths base) st.dirs hq h
    have hnoop : mkdirAllGo (mkdirAll st base 0o750).2.files 0o750
        (mkdirAll st base 0o750).2.dirs (ancestorPaths base)
        = (none, (mkdirAll st base 0o750).2.dirs) :=
      mkdirAllGo_noop _ 0o750 (ancestorPaths base) _ h hmem2
    have hmk2 : mkdirAll (mkdirAll st base 0o750).2 base 0o750
        = (none, (mkdirAll st base 0o750).2) := by
      simp only [mkdirAll] at hnoop ⊢
      rw [hnoop]
      rfl
    rw [hnew]
    simp only [NewContentStore]
    rw [hmk2]
  · intro st2 hex
    obtain ⟨q, hq, hsome⟩ := hex
    obtain ⟨p, hp⟩ := mkdirAllGo_err st2.files 0o750 q (ancestorPaths base) st2.dirs hq hsome
    have herr : (mkdirAll st2 base 0o750).1 = some StoreErr.ioErr := by
      simp [mkdirAll, hp]
    have hpair2 : mkdirAll st2 base 0o750
        = (some StoreErr.ioErr, (mkdirAll st2 base 0o750).2) := by
      rw [← herr]
    constructor
    · simp only [NewContentStore]
      rw [hpair2]
    · simp only [NewContentStore]
      rw [hpair2]

/-- C9 amended witness: initializing at `"data/objects"` from an empty
state succeeds, creates both nested directories with permission 0o750, and
a second initialization is a successful no-op. -/
theorem newContentStore_amended_witness :
    (NewContentStore ⟨[], []⟩ "data/objects").1 = none ∧
    lookupKV (NewContentStore ⟨[], []⟩ "data/objects").2.2.dirs "data"
      = some 0o750 ∧
    lookupKV (NewContentStore ⟨[], []⟩ "data/objects").2.2.dirs "data/objects"
      = some 0o750 ∧
    NewContentStore (NewContentStore ⟨[], []⟩ "data/objects").2.2 "data/objects"
      = (none, some ⟨"data/objects"⟩, (NewContentStore ⟨[], []⟩ "data/objects").2.2) ∧
    (NewContentStore ⟨[], [("data", FileEntry.file [1])]⟩ "data/objects").1
      = some StoreErr.ioErr :=
  ⟨(newContentStore_amended ⟨[], []⟩ "data/objects" (by decide)).1,
   (newContentStore_amended ⟨[], []⟩ "data/objects" (by decide)).2.2.2.1 "data"
     (by decide) (by decide),
   (newContentStore_amended ⟨[], []⟩ "data/objects" (by decide)).2.2.2.1 "data/objects"
     (by decide) (by decide),
   (newContentStore_amended ⟨[], []⟩ "data/objects" (by decide)).2.2.2.2.1,
   ((newContentStore_amended ⟨[], []⟩ "data/objects" (by decide)).2.2.2.2.2
     ⟨[], [("data", FileEntry.file [1])]⟩ ⟨"data", by decide, by decide⟩).1⟩

/-- C1 witness: `put_get_roundtrip` at the identity codec, a concrete hash
function, content `[1, 2, 3]` and its matching descriptor, from an empty
file system. -/
theorem put_get_roundtrip_witness :
    (ContentStore.Put ⟨"base"⟩ idCodec (fun _ => "abc") ⟨[], []⟩ ⟨"abc", 3⟩
      [1, 2, 3]).1 = none ∧
    ContentStore.Get ⟨"base"⟩ idCodec
      (ContentStore.Put ⟨"base"⟩ idCodec (fun _ => "abc") ⟨[], []⟩ ⟨"abc", 3⟩
        [1, 2, 3]).2 ⟨"abc", 3⟩ 0 = (some [1, 2, 3], none) :=
  put_get_roundtrip ⟨"base"⟩ idCodec (fun _ => "abc") ⟨[], []⟩ ⟨"abc", 3⟩ [1, 2, 3]
    (by decide) (by decide) (by decide) (by decide) (by decide)

/-- C3 witness: `get_partial_read` on stored content `[5, 6, 7]`: offset 1
yields `[6, 7]` with no error, offset 4 yields the EOF error. -/
theorem get_partial_read_witness :
    ContentStore.Get ⟨"base"⟩ idCodec
      ⟨[], [("base/oid1.gz", FileEntry.file [5, 6, 7])]⟩ ⟨"oid1", 3⟩ 1
      = (some [6, 7], none) ∧
    (ContentStore.Get ⟨"base"⟩ idCodec
      ⟨[], [("base/oid1.gz", FileEntry.file [5, 6, 7])]⟩ ⟨"oid1", 3⟩ 4).2
      = some StoreErr.eof :=
  ⟨(get_partial_read ⟨"base"⟩ idCodec
      ⟨[], [("base/oid1.gz", FileEntry.file [5, 6, 7])]⟩ ⟨"oid1", 3⟩ [5, 6, 7] 1
      (by decide) (by decide)).1 (by decide) (by decide),
   (get_partial_read ⟨"base"⟩ idCodec
      ⟨[], [("base/oid1.gz", FileEntry.file [5, 6, 7])]⟩ ⟨"oid1", 3⟩ [5, 6, 7] 4
      (by decide) (by decide)).2 (by decide)⟩

/-- C4 witness: `put_size_mismatch` for two bytes against an expected size
of 5: the put fails with the size-mismatch error and leaves nothing behind. -/
theorem put_size_mismatch_witness :
    (ContentStore.Put ⟨"base"⟩ idCodec (fun _ => "sz") ⟨[], []⟩ ⟨"sz", 5⟩ [1, 2]).1
      = some StoreErr.sizeMismatch ∧
    lookupKV (ContentStore.Put ⟨"base"⟩ idCodec (fun _ => "sz") ⟨[], []⟩ ⟨"sz", 5⟩
      [1, 2]).2.files (finalPath "base" "sz" ++ ".tmp") = none ∧
    lookupKV (ContentStore.Put ⟨"base"⟩ idCodec (fun _ => "sz") ⟨[], []⟩ ⟨"sz", 5⟩
      [1, 2]).2.files (finalPath "base" "sz") = none ∧
    ContentStore.Exists ⟨"base"⟩
      (ContentStore.Put ⟨"base"⟩ idCodec (fun _ => "sz") ⟨[], []⟩ ⟨"sz", 5⟩
        [1, 2]).2 ⟨"sz", 5⟩ = false :=
  put_size_mismatch ⟨"base"⟩ idCodec (fun _ => "sz") ⟨[], []⟩ ⟨"sz", 5⟩ [1, 2]
    (by decide) (by decide) (by decide) (by decide)

/-- C5 witness: `put_hash_mismatch` with a hash function returning a value
different from the identifier: matching size gives the hash-mismatch error,
mismatching size gives the size-mismatch error even though the hash also
disagrees. -/
theorem put_hash_mismatch_witness :
    ((ContentStore.Put ⟨"base"⟩ idCodec (fun _ => "other") ⟨[], []⟩ ⟨"hh", 1⟩ [9]).1
        = some StoreErr.hashMismatch ∧
      lookupKV (ContentStore.Put ⟨"base"⟩ idCodec (fun _ => "other") ⟨[], []⟩
        ⟨"hh", 1⟩ [9]).2.files (finalPath "base" "hh") = none ∧
      lookupKV (ContentStore.Put ⟨"base"⟩ idCodec (fun _ => "other") ⟨[], []⟩
        ⟨"hh", 1⟩ [9]).2.files (finalPath "base" "hh" ++ ".tmp") = none) ∧
    (ContentStore.Put ⟨"base"⟩ idCodec (fun _ => "other") ⟨[], []⟩ ⟨"hh", 2⟩ [9]).1
      = some StoreErr.sizeMismatch :=
  ⟨(put_hash_mismatch ⟨"base"⟩ idCodec (fun _ => "other") ⟨[], []⟩ ⟨"hh", 1⟩ [9]
      (by decide) (by decide) (by decide)).1 (by decide) (by decide),
   (put_hash_mismatch ⟨"base"⟩ idCodec (fun _ => "other") ⟨[], []⟩ ⟨"hh", 2⟩ [9]
      (by decide) (by decide) (by decide)).2 (by decide) (by decide)⟩

/-- C8 witness: `put_tmp_already_exists` when the temporary file for the
identifier is already present: the second put fails with the already-exists
error and the files are untouched. -/
theorem put_tmp_already_exists_witness :
    (ContentStore.Put ⟨"base"⟩ idCodec (fun _ => "tmp1")
      ⟨[], [("base/tmp1.gz.tmp", FileEntry.file [0])]⟩ ⟨"tmp1", 1⟩ [7]).1
      = some StoreErr.alreadyExists ∧
    (ContentStore.Put ⟨"base"⟩ idCodec (fun _ => "tmp1")
      ⟨[], [("base/tmp1.gz.tmp", FileEntry.file [0])]⟩ ⟨"tmp1", 1⟩ [7]).2.files
      = [("base/tmp1.gz.tmp", FileEntry.file [0])] :=
  put_tmp_already_exists ⟨"base"⟩ idCodec (fun _ => "tmp1")
    ⟨[], [("base/tmp1.gz.tmp", FileEntry.file [0])]⟩ ⟨"tmp1", 1⟩ [7] [0]
    (by decide) (by decide)

/-- C10 witness: `get_eof_nonnil_reader` on stored content `[1, 2]` read at
offset 5: the reader is present (and empty) alongside the EOF error. -/
theorem get_eof_nonnil_reader_witness :
    ContentStore.Get ⟨"base"⟩ idCodec
      ⟨[], [("base/eofx.gz", FileEntry.file [1, 2])]⟩ ⟨"eofx", 2⟩ 5
      = (some [], some StoreErr.eof) ∧
    (ContentStore.Get ⟨"base"⟩ idCodec
      ⟨[], [("base/eofx.gz", FileEntry.file [1, 2])]⟩ ⟨"eofx", 2⟩ 5).1 ≠ none :=
  get_eof_nonnil_reader ⟨"base"⟩ idCodec
    ⟨[], [("base/eofx.gz", FileEntry.file [1, 2])]⟩ ⟨"eofx", 2⟩ [1, 2] 5
    (by decide) (by decide) (by decide)
